import Mathlib

/-!
Verification development for the IdeaSystemXS retrieval core.

Shallow embedding of `src/business/search_engine.py` (keyword, vector and
hybrid search, related-idea resolution) and `src/ai/embedding_generator.py`.
Scores are modelled as exact rationals; the SQLite store is modelled as a
list of rows; the external ChromaDB vector index is an oracle function in
the environment.  String matching follows Python `str.lower`/`str.count`
and SQLite `LIKE` semantics restricted to ASCII case folding.
-/

namespace IdeaSys

/-- Case folding of a single character, as Python `str.lower` / SQLite
`LIKE` behave on ASCII input (the only input the source compares). -/
def lowerChar (c : Char) : Char := c.toLower

/-- Lower-case a string character-wise. -/
def strLower (s : String) : List Char := s.data.map lowerChar

/-- `pat` occurs somewhere in `hay` as a contiguous substring
(SQLite `col LIKE '%pat%'` on non-NULL `col`). -/
def containsSub (hay pat : List Char) : Bool :=
  match hay with
  | [] => pat.isEmpty
  | _ :: t => pat.isPrefixOf hay || containsSub t pat

/-- Scanning loop behind `countOcc`, with a structural fuel argument so
the kernel can evaluate it; `fuel ≥ hay.length` makes it total for
non-empty `pat` (each step consumes at least one character). -/
def countOccAux (pat : List Char) : Nat → List Char → Nat
  | 0, _ => 0
  | _ + 1, [] => 0
  | fuel + 1, c :: t =>
    if pat.isPrefixOf (c :: t) then
      1 + countOccAux pat fuel ((c :: t).drop pat.length)
    else countOccAux pat fuel t

/-- Number of non-overlapping occurrences of `pat` in `hay`, the semantics
of Python `hay.count(pat)` (including `count("") = len + 1`). -/
def countOcc (hay pat : List Char) : Nat :=
  if pat.isEmpty then hay.length + 1 else countOccAux pat hay.length hay

/-- A row of the `Ideas` table together with its `IdeaTags` associations
(`tags` is the list of tag ids linked to the idea). -/
structure Idea where
  id : Nat
  title : Option String := none
  content : String
  createdAt : Int := 0
  isArchived : Bool := false
  isFavorite : Bool := false
  tags : List Nat := []
deriving DecidableEq, Repr

/-- A row of the `Relations` table. -/
structure Relation where
  source : Nat
  target : Nat
  confidence : ℚ := 0
deriving DecidableEq, Repr

/-- One hit returned by `VectorDBManager.search_similar_ideas`: an idea id
with the distance reported by the index (`None` when the index omits it). -/
structure VecHit where
  ideaId : Nat
  distance : Option ℚ := none
deriving DecidableEq, Repr

/-- The metadata filter `_vector_search` forwards to the vector index
(`is_archived` / `is_favorite` encoded as 0/1 integers, as the code does). -/
structure MetaFilter where
  isArchived : Option Nat := none
  isFavorite : Option Nat := none
deriving DecidableEq, Repr

/-- The `filters` dict accepted by `SearchEngine.search`.  `tagIds = some l`
models the key `"tag_ids"` being present with value `l` (Python treats an
empty list as absent: `"tag_ids" in filters and filters["tag_ids"]`). -/
structure Filters where
  isArchived : Option Bool := none
  isFavorite : Option Bool := none
  tagIds : Option (List Nat) := none
deriving DecidableEq, Repr

/-- Provenance tag the hybrid merge writes into `search_source`. -/
inductive Source
  | keyword
  | vector
  | both
deriving DecidableEq, Repr

/-- A search-result row: an idea dict enriched with the `relevance` score
and, after the hybrid merge, the `search_source` tag. -/
structure SearchRow where
  idea : Idea
  relevance : ℚ
  source : Option Source := none
deriving DecidableEq, Repr

/-- The world the search engine runs in: the relational store, the
configuration flags read from `ConfigManager`, and the external vector
index as an oracle that either answers a query or raises. -/
structure Env where
  ideas : List Idea
  relations : List Relation := []
  aiEnabled : Bool := false
  offlineMode : Bool := false
  vecQuery : String → Nat → Option MetaFilter → Except Unit (List VecHit) :=
    fun _ _ _ => .error ()

/-- `IdeaManager.get_idea`: look the idea row up by primary key. -/
def getIdea (env : Env) (ideaId : Nat) : Option Idea :=
  env.ideas.find? (fun i => i.id == ideaId)

/-- SQL `LIKE` pattern matching, with a structural fuel argument so the
kernel can evaluate it: `%` matches any sequence, `_` matches exactly one
character, anything else matches itself (inputs arrive already
case-folded, modelling `LIKE`'s ASCII case-insensitivity).  A fuel of
`pat.length + hay.length + 1` is total: every step shrinks the sum. -/
def likeMatchesAux : Nat → List Char → List Char → Bool
  | 0, _, _ => false
  | _ + 1, [], hay => hay.isEmpty
  | fuel + 1, c :: ps, hay =>
    if c == '%' then
      likeMatchesAux fuel ps hay ||
        (match hay with
         | [] => false
         | _ :: t => likeMatchesAux fuel (c :: ps) t)
    else
      match hay with
      | [] => false
      | d :: t => (if c == '_' then true else c == d) && likeMatchesAux fuel ps t

/-- `hay LIKE pat` for an already case-folded pattern and subject. -/
def likeMatches (pat hay : List Char) : Bool :=
  likeMatchesAux (pat.length + hay.length + 1) pat hay

/-- The character list holds no SQL `LIKE` wildcard (`%` or `_`). -/
def noWild (l : List Char) : Bool :=
  l.all (fun c => !(c == '%') && !(c == '_'))

/-- The SQL `WHERE (i.content LIKE ? OR i.title LIKE ?)` clause of
`_keyword_search`: the parameter is the interpolated string `%query%`, so
`%` and `_` inside the query act as wildcards; `LIKE` is case-insensitive
and a NULL title matches nothing. -/
def likeMatch (i : Idea) (q : String) : Bool :=
  likeMatches ('%' :: (strLower q ++ ['%'])) (strLower i.content) ||
    (match i.title with
     | some t => likeMatches ('%' :: (strLower q ++ ['%'])) (strLower t)
     | none => false)

/-- The extra `AND` clauses `_keyword_search` appends for the
`is_archived` / `is_favorite` / `tag_ids` filters.  The tag clause is
`i.id IN (SELECT idea_id FROM IdeaTags WHERE tag_id IN (...))`: membership
in ANY of the requested tags. -/
def rowFilter (f : Filters) (i : Idea) : Bool :=
  (match f.isArchived with
   | some b => i.isArchived == b
   | none => true) &&
  (match f.isFavorite with
   | some b => i.isFavorite == b
   | none => true) &&
  (match f.tagIds with
   | some ts => if ts.isEmpty then true else ts.any (fun t => i.tags.contains t)
   | none => true)

/-- Stable descending sort by creation time (`ORDER BY i.created_at DESC`). -/
def sortByCreatedDesc (l : List Idea) : List Idea :=
  l.insertionSort (fun a b => b.createdAt ≤ a.createdAt)

/-- Stable descending sort by relevance: Python
`list.sort(key=lambda x: x["relevance"], reverse=True)`. -/
def sortByRelevanceDesc (l : List SearchRow) : List SearchRow :=
  l.insertionSort (fun a b => b.relevance ≤ a.relevance)

/-- `SearchEngine._calculate_keyword_relevance`: occurrence counts of the
lowered query in the lowered content and title (a falsy title counts as
the empty string), weighted 0.1 / 0.5 and clamped to 1. -/
def calculateKeywordRelevance (i : Idea) (q : String) : ℚ :=
  let ql := strLower q
  let contentCount := countOcc (strLower i.content) ql
  let titleCount :=
    countOcc (strLower (match i.title with | some t => t | none => "")) ql
  min 1 ((contentCount : ℚ) * (1 / 10) + (titleCount : ℚ) * (1 / 2))

/-- `SearchEngine._keyword_search`: SQL filter, order by `created_at`
descending, `LIMIT limit OFFSET offset`, then score each surviving row and
re-sort by relevance descending. -/
def keywordSearch (env : Env) (q : String) (limit offset : Nat)
    (f : Filters) : List SearchRow :=
  let rows := env.ideas.filter (fun i => likeMatch i q && rowFilter f i)
  let rows := ((sortByCreatedDesc rows).drop offset).take limit
  let scored := rows.map
    (fun i => { idea := i, relevance := calculateKeywordRelevance i q })
  sortByRelevanceDesc scored

/-- The metadata filter `_vector_search` builds from `filters`. -/
def metaFilterOf (f : Filters) : Option MetaFilter :=
  let m : MetaFilter :=
    { isArchived := f.isArchived.map (fun b => if b then 1 else 0)
      isFavorite := f.isFavorite.map (fun b => if b then 1 else 0) }
  if m = {} then none else some m

/-- The body of `_vector_search`'s result loop for one hit: look the idea
up (skip if missing), attach `relevance = 1.0 - (distance or 0.0)`, and
drop the idea when a non-empty tag filter is not a subset of its tags. -/
def vecRow (env : Env) (f : Filters) (h : VecHit) : Option SearchRow :=
  match getIdea env h.ideaId with
  | none => none
  | some idea =>
    let row : SearchRow := { idea := idea, relevance := 1 - (h.distance.getD 0) }
    match f.tagIds with
    | some ts =>
      if ts.isEmpty then some row
      else if ts.all (fun t => idea.tags.contains t) then some row
      else none
    | none => some row

/-- `SearchEngine._vector_search`: when AI is disabled or offline, fall
back to keyword search; otherwise query the index for `limit + offset`
hits, slice `[offset : offset + limit]`, and resolve each hit; if the
index raises, fall back to keyword search. -/
def vectorSearch (env : Env) (q : String) (limit offset : Nat)
    (f : Filters) : List SearchRow :=
  if !env.aiEnabled || env.offlineMode then
    keywordSearch env q limit offset f
  else
    match env.vecQuery q (limit + offset) (metaFilterOf f) with
    | .error _ => keywordSearch env q limit offset f
    | .ok hits => ((hits.drop offset).take limit).filterMap (vecRow env f)

/-- Tagging of the keyword sub-results when they seed the merge dict
(`merged_results[idea_id]["search_source"] = "keyword"`). -/
def addKeywordRows (kw : List SearchRow) : List SearchRow :=
  kw.map (fun r => { r with source := some Source.keyword })

/-- One step of the vector loop of `_hybrid_search`: if the id is already
in the merge dict, take the maximum relevance and mark `both`; otherwise
append the row marked `vector` (Python dicts preserve insertion order and
keep the position of updated keys). -/
def insertVecRow (acc : List SearchRow) (v : SearchRow) : List SearchRow :=
  if acc.any (fun r => r.idea.id == v.idea.id) then
    acc.map (fun r =>
      if r.idea.id == v.idea.id then
        { r with relevance := max r.relevance v.relevance,
                 source := some Source.both }
      else r)
  else acc ++ [{ v with source := some Source.vector }]

/-- The merge dict of `_hybrid_search` after both loops, in insertion
order. -/
def mergeResults (kw vec : List SearchRow) : List SearchRow :=
  vec.foldl insertVecRow (addKeywordRows kw)

/-- The update `_hybrid_search` applies when a vector row's id is already
in the merge dict: maximum relevance, source `both`. -/
def updRow (a b : SearchRow) : SearchRow :=
  { a with relevance := max a.relevance b.relevance, source := some Source.both }

/-- The tagging of a vector row appended as a new merge entry. -/
def tagVecRow (b : SearchRow) : SearchRow := { b with source := some Source.vector }

/-- Closed form of the merge dict (proved equal to `mergeResults` for
duplicate-free ids): each seed row updated by the first vector row
carrying its id (if any), followed by the vector rows whose id is new, in
order. -/
def mergeSpec (acc vec : List SearchRow) : List SearchRow :=
  acc.map (fun a =>
    match vec.find? (fun b => a.idea.id == b.idea.id) with
    | some b => updRow a b
    | none => a) ++
  (vec.filter (fun b => !acc.any (fun a => a.idea.id == b.idea.id))).map tagVecRow

/-- `SearchEngine._hybrid_search`: keyword-only when AI is disabled or
offline; otherwise run both sub-searches with `limit` and offset 0, merge,
sort by relevance descending, and slice `[offset : offset + limit]`. -/
def hybridSearch (env : Env) (q : String) (limit offset : Nat)
    (f : Filters) : List SearchRow :=
  if !env.aiEnabled || env.offlineMode then
    keywordSearch env q limit offset f
  else
    let kw := keywordSearch env q limit 0 f
    let vec := vectorSearch env q limit 0 f
    let results := sortByRelevanceDesc (mergeResults kw vec)
    (results.drop offset).take limit

/-- Tier 1 of `get_related_ideas`: the SQL join of `Relations` (rows with
the given source) against `Ideas`, ordered by confidence descending,
`LIMIT limit`.  Relation rows whose target id has no `Ideas` row drop out
of the join. -/
def relatedFromRelations (env : Env) (ideaId : Nat) (limit : Nat) : List Idea :=
  ((((env.relations.filter (fun r => r.source == ideaId)).insertionSort
      (fun a b => b.confidence ≤ a.confidence)).filterMap
      (fun r => getIdea env r.target)).take limit)

/-- `COUNT(it.tag_id)` of the tier-3 query: how many of the source idea's
tags the candidate idea also carries. -/
def sharedTagCount (src cand : Idea) : Nat :=
  (cand.tags.filter (fun t => src.tags.contains t)).length

/-- The `ORDER BY tag_count DESC, i.created_at DESC` ranking of tier 3. -/
def tagRank (src : Idea) (a b : Idea) : Prop :=
  sharedTagCount src b < sharedTagCount src a ∨
    (sharedTagCount src a = sharedTagCount src b ∧ b.createdAt ≤ a.createdAt)

instance (src : Idea) : DecidableRel (tagRank src) := fun a b => by
  unfold tagRank; infer_instance

/-- Tier 3 of `get_related_ideas`: ideas sharing at least one tag with the
source (the join against `IdeaTags` requires a matching row), excluding
the source id and the tier-1 ids, ranked by shared-tag count then recency,
`LIMIT remaining`. -/
def relatedTagResults (env : Env) (src : Idea) (tier1Ids : List Nat)
    (remaining : Nat) : List Idea :=
  (((env.ideas.filter (fun i =>
      decide (0 < sharedTagCount src i) && i.id != src.id &&
        !tier1Ids.contains i.id)).insertionSort (tagRank src)).take remaining)

/-- `SearchEngine.get_related_ideas`: curated relations first; if they
already fill `limit`, stop.  Otherwise, with AI enabled and online, ask
the vector index for `remaining + 1` neighbours of the idea's content,
drop the idea itself, and append — the tag tier runs only when the vector
query raised or AI was unavailable, and only when the idea has tags. -/
def getRelatedIdeas (env : Env) (ideaId : Nat) (limit : Nat) : List Idea :=
  match getIdea env ideaId with
  | none => []
  | some idea =>
    let tier1 := relatedFromRelations env ideaId limit
    if limit ≤ tier1.length then tier1.take limit
    else
      let remaining := limit - tier1.length
      let tagBranch :=
        if idea.tags.isEmpty then tier1
        else (tier1 ++ relatedTagResults env idea (tier1.map (fun i => i.id))
          remaining).take limit
      if env.aiEnabled && !env.offlineMode then
        match env.vecQuery idea.content (remaining + 1) none with
        | .ok hits =>
          let similar := (hits.filter (fun h => h.ideaId != ideaId)).take remaining
          let vecResults := similar.filterMap (fun h => getIdea env h.ideaId)
          (tier1 ++ vecResults).take limit
        | .error _ => tagBranch
      else tagBranch

/-- Python `str.split()` on an already-lowered character list: split on
runs of whitespace, dropping empty chunks. -/
def splitWs (l : List Char) : List (List Char) :=
  match l with
  | [] => []
  | c :: t =>
    if c.isWhitespace then splitWs t
    else
      (c :: t).takeWhile (fun d => !d.isWhitespace) ::
        splitWs ((c :: t).dropWhile (fun d => !d.isWhitespace))
termination_by l.length
decreasing_by
  · simp
  · have := (List.dropWhile_sublist (fun d => !d.isWhitespace) (l := t)).length_le
    simp [List.dropWhile_cons, *]
    omega

/-- `np.linalg.norm`-based normalisation of the bag-of-words vector:
divide by the Euclidean norm when it is positive (the square root forces
the entries into `ℝ`). -/
noncomputable def l2Normalize (v : List ℚ) : List ℝ :=
  let nsq : ℚ := (v.map (fun x => x * x)).sum
  if 0 < nsq then v.map (fun x => (x : ℝ) / Real.sqrt (nsq : ℚ))
  else v.map (fun x => (x : ℝ))

/-- `EmbeddingGenerator._generate_fallback_embedding`: lower-case
whitespace tokens, per-distinct-word frequency vector, L2-normalise,
then zero-pad or truncate to the hard-coded dimension 1536. -/
noncomputable def generateFallbackEmbedding (text : String) : List ℝ :=
  let words := splitWs (strLower text)
  let wordSet := words.dedup
  let vector : List ℚ := wordSet.map (fun w => (words.count w : ℚ))
  let nvec := l2Normalize vector
  let dim : Nat := 1536
  if nvec.length < dim then nvec ++ List.replicate (dim - nvec.length) 0
  else nvec.take dim

/-- `EmbeddingGenerator.generate_embedding`, with the `AIService` call
abstracted as an oracle that returns `none` when the remote provider is
unavailable or fails: empty text yields `None`; otherwise the remote
vector, or the local fallback when the remote is unavailable. -/
noncomputable def generateEmbedding (ai : String → Option (List ℝ))
    (text : String) : Option (List ℝ) :=
  if text = "" then none
  else
    match ai text with
    | some e => some e
    | none => some (generateFallbackEmbedding text)

/-- The `search_type` argument of `SearchEngine.search`. -/
inductive Mode
  | keyword
  | vector
  | hybrid
deriving DecidableEq, Repr

/-- `SearchEngine.search`: empty queries yield an empty list, otherwise
dispatch on the search type (anything but `keyword`/`vector` is hybrid). -/
def search (env : Env) (q : String) (mode : Mode) (limit offset : Nat)
    (f : Filters) : List SearchRow :=
  if q = "" then []
  else
    match mode with
    | .keyword => keywordSearch env q limit offset f
    | .vector => vectorSearch env q limit offset f
    | .hybrid => hybridSearch env q limit offset f

/-- The hybrid algorithm as §4.5 of the specification words it, for the
AI-available case: both retrievers granted `limit + offset` candidates,
union by idea id, stable sort by score descending, slice last.  Written
from the specification only, to be compared with `hybridSearch`. -/
def specHybridSearch (env : Env) (q : String) (limit offset : Nat)
    (f : Filters) : List SearchRow :=
  let kw := keywordSearch env q (limit + offset) 0 f
  let vec := vectorSearch env q (limit + offset) 0 f
  ((sortByRelevanceDesc (mergeResults kw vec)).drop offset).take limit

/-- Tier 2 of `get_related_ideas`: the vector hits minus the source idea,
cut to the remaining quota and resolved against the store. -/
def relatedVecResults (env : Env) (ideaId : Nat) (remaining : Nat)
    (hits : List VecHit) : List Idea :=
  ((hits.filter (fun h => h.ideaId != ideaId)).take remaining).filterMap
    (fun h => getIdea env h.ideaId)

/- Concrete fixtures used by witnesses and counterexamples. -/

/-- Scenario note `{id:1, title:"Rust", body:"ownership model"}`. -/
def ideaRust : Idea := { id := 1, title := some "Rust", content := "ownership model" }

/-- Scenario note `{id:2, title:"Go", body:"goroutines"}`. -/
def ideaGo : Idea := { id := 2, title := some "Go", content := "goroutines" }

/-- Store holding the two scenario notes, AI disabled. -/
def envScenario : Env := { ideas := [ideaRust, ideaGo] }

/-- Three ideas matching query `"a"`, decreasing creation time. -/
def ideaPag1 : Idea := { id := 1, content := "a", createdAt := 3 }

def ideaPag2 : Idea := { id := 2, content := "a", createdAt := 2 }

def ideaPag3 : Idea := { id := 3, content := "a", createdAt := 1 }

/-- Pagination environment: AI on, vector index answers with no hits. -/
def envPag : Env :=
  { ideas := [ideaPag1, ideaPag2, ideaPag3], aiEnabled := true,
    vecQuery := fun _ _ _ => .ok [] }

/-- AI on; the index reports idea 1 at distance 5/2 (greater than 1). -/
def envFarHit : Env :=
  { ideas := [ideaPag1], aiEnabled := true,
    vecQuery := fun _ _ _ => .ok [{ ideaId := 1, distance := some (5 / 2) }] }

/-- An idea carrying exactly one tag. -/
def ideaOneTag : Idea := { id := 1, content := "x", tags := [1] }

/-- AI on; the index returns the one-tag idea at distance 0. -/
def envOneTag : Env :=
  { ideas := [ideaOneTag], aiEnabled := true,
    vecQuery := fun _ _ _ => .ok [{ ideaId := 1, distance := some 0 }] }

/-- A tag filter requesting two tags, only one of which `ideaOneTag` has. -/
def filtersTwoTags : Filters := { tagIds := some [1, 2] }

/-- AI on but the vector index raises on every query. -/
def envIdxErr : Env :=
  { ideas := [ideaOneTag], aiEnabled := true,
    vecQuery := fun _ _ _ => .error () }

def ideaRelSrc : Idea := { id := 1, content := "x" }

def ideaRelA : Idea := { id := 2, content := "y" }

def ideaRelB : Idea := { id := 3, content := "z" }

/-- One curated relation 1 → 2; the index also returns idea 2 (and 3) as
neighbours of idea 1's content. -/
def envDupRel : Env :=
  { ideas := [ideaRelSrc, ideaRelA, ideaRelB],
    relations := [{ source := 1, target := 2, confidence := 9 / 10 }],
    aiEnabled := true,
    vecQuery := fun _ _ _ =>
      .ok [{ ideaId := 2, distance := some 0 }, { ideaId := 3, distance := some 0 }] }

def ideaTagSrc : Idea := { id := 1, content := "x", tags := [10] }

def ideaTagCand : Idea := { id := 2, content := "y", tags := [10] }

/-- No curated relations; AI on, the vector query succeeds with zero hits;
a tag-overlap candidate exists. -/
def envVecEmpty : Env :=
  { ideas := [ideaTagSrc, ideaTagCand], aiEnabled := true,
    vecQuery := fun _ _ _ => .ok [] }

/-- The same store with AI disabled, so the tag tier runs. -/
def envVecOff : Env := { ideas := [ideaTagSrc, ideaTagCand] }

/-- An embedding oracle standing for an unavailable remote provider. -/
noncomputable def aiUnavailable : String → Option (List ℝ) := fun _ => none

/-- The single row the scenario lexical search returns. -/
def rowRust : SearchRow := { idea := ideaRust, relevance := 1 / 10 }

/-- The far hit `envFarHit`'s index reports. -/
def hitFar : VecHit := { ideaId := 1, distance := some (5 / 2) }

/-- The row the engine builds from `hitFar`. -/
def rowFar : SearchRow := { idea := ideaPag1, relevance := -(3 / 2) }

/-- The single keyword row at `envOneTag` under the two-tag filter. -/
def rowOneTag : SearchRow := { idea := ideaOneTag, relevance := 1 / 10 }

/-- An idea carrying both requested tags. -/
def ideaTwoTags : Idea := { id := 5, content := "x", tags := [1, 2] }

/-- The index hit for `ideaTwoTags` at distance 0. -/
def hitTwoTags : VecHit := { ideaId := 5, distance := some 0 }

/-- AI on; the index returns `ideaTwoTags` at distance 0. -/
def envSubset : Env :=
  { ideas := [ideaTwoTags], aiEnabled := true,
    vecQuery := fun _ _ _ => .ok [hitTwoTags] }

/-- The vector row built from `hitTwoTags`. -/
def rowTwoTags : SearchRow := { idea := ideaTwoTags, relevance := 1 }

/-- An idea whose body has no literal underscore or percent sign. -/
def ideaWild : Idea := { id := 9, content := "a" }

/-- Store for the wildcard-query counterexample, AI disabled. -/
def envWild : Env := { ideas := [ideaWild] }

/-- A lexical sub-result row for the merge witness. -/
def mergeKwRow : SearchRow := { idea := ideaRust, relevance := 1 / 10 }

/-- A vector sub-result row with the same idea id and a higher score. -/
def mergeVecRow : SearchRow := { idea := ideaRust, relevance := 3 / 5 }

/-! Theorems.  Supporting lemmas first, then one theorem (plus witness or
counterexample) per claim. -/

theorem countOccAux_pos (pat : List Char) (hpat : pat ≠ []) :
    ∀ hay : List Char, containsSub hay pat = true →
      0 < countOccAux pat hay.length hay := by
  intro hay
  induction hay with
  | nil =>
    intro h
    simp [containsSub, List.isEmpty_iff, hpat] at h
  | cons c t ih =>
    intro h
    show 0 < countOccAux pat (t.length + 1) (c :: t)
    rw [countOccAux]
    by_cases hp : pat.isPrefixOf (c :: t)
    · simp [hp]
    · rw [if_neg hp]
      apply ih
      rw [containsSub] at h
      simpa [hp] using h

/-- A substring match makes the occurrence count positive. -/
theorem countOcc_pos (hay pat : List Char) (h : containsSub hay pat = true) :
    0 < countOcc hay pat := by
  unfold countOcc
  by_cases hpat : pat.isEmpty
  · simp [hpat]
  · rw [if_neg hpat]
    exact countOccAux_pos pat (by simpa [List.isEmpty_iff] using hpat) hay h

/-- Unpacking membership in a keyword-search result: the row scores its
own idea, and the idea passed the SQL `LIKE` clause and the filters. -/
theorem mem_keywordSearch (env : Env) (q : String) (limit offset : Nat)
    (f : Filters) (r : SearchRow) (hr : r ∈ keywordSearch env q limit offset f) :
    r.relevance = calculateKeywordRelevance r.idea q ∧
      likeMatch r.idea q = true ∧ rowFilter f r.idea = true := by
  unfold keywordSearch at hr
  have hr2 := (List.perm_insertionSort _ _).mem_iff.mp hr
  rcases List.mem_map.mp hr2 with ⟨i, hi, hri⟩
  have hip : i ∈ env.ideas.filter (fun i => likeMatch i q && rowFilter f i) := by
    have h3 := (List.take_sublist _ _).subset hi
    have h4 := (List.drop_sublist _ _).subset h3
    exact (List.perm_insertionSort _ _).mem_iff.mp h4
  have hpred := List.of_mem_filter hip
  have hii : r.idea = i := by rw [← hri]
  have hrel : r.relevance = calculateKeywordRelevance i q := by rw [← hri]
  rw [hii, hrel]
  exact ⟨rfl, by simpa using hpred⟩

/-- Unpacking a resolved vector hit: the idea is the store's row for the
hit id, the relevance is `1 - distance`, and a non-empty tag filter is a
subset of the idea's tags. -/
theorem vecRow_eq_some (env : Env) (f : Filters) (h : VecHit) (r : SearchRow)
    (hr : vecRow env f h = some r) :
    getIdea env h.ideaId = some r.idea ∧
      r.relevance = 1 - h.distance.getD 0 ∧
      ∀ ts, f.tagIds = some ts → ts ≠ [] → ∀ t ∈ ts, t ∈ r.idea.tags := by
  unfold vecRow at hr
  split at hr
  · cases hr
  next idea hg =>
    split at hr
    next ts hf =>
      split at hr
      next hts =>
        cases hr
        refine ⟨hg, rfl, ?_⟩
        intro ts' hts' hne
        rw [hf] at hts'
        cases hts'
        exact absurd (by simpa [List.isEmpty_iff] using hts) hne
      next hts =>
        split at hr
        next hall =>
          cases hr
          refine ⟨hg, rfl, ?_⟩
          intro ts' hts' _ t ht
          rw [hf] at hts'
          cases hts'
          simpa using List.all_eq_true.mp hall t ht
        next => cases hr
    next hf =>
      cases hr
      exact ⟨hg, rfl, by simp [hf]⟩

/-- Membership in an AI-available, non-erroring vector search comes from a
resolved hit of the index's answer. -/
theorem mem_vectorSearch (env : Env) (q : String) (limit offset : Nat)
    (f : Filters) (hits : List VecHit)
    (hai : env.aiEnabled = true) (hoff : env.offlineMode = false)
    (hok : env.vecQuery q (limit + offset) (metaFilterOf f) = .ok hits)
    (r : SearchRow) (hr : r ∈ vectorSearch env q limit offset f) :
    ∃ h ∈ hits, vecRow env f h = some r := by
  unfold vectorSearch at hr
  rw [hai, hoff, hok] at hr
  simp only [Bool.not_true, Bool.false_or, if_false] at hr
  rcases List.mem_filterMap.mp hr with ⟨h, hh, hrow⟩
  have hh2 := (List.take_sublist _ _).subset hh
  exact ⟨h, (List.drop_sublist _ _).subset hh2, hrow⟩

/-- One-step unfolding of the `LIKE` matcher on a non-empty pattern. -/
theorem likeMatchesAux_succ_cons (fuel : Nat) (c : Char) (ps hay : List Char) :
    likeMatchesAux (fuel + 1) (c :: ps) hay =
      if c == '%' then
        likeMatchesAux fuel ps hay ||
          (match hay with
           | [] => false
           | _ :: t => likeMatchesAux fuel (c :: ps) t)
      else
        match hay with
        | [] => false
        | d :: t => (if c == '_' then true else c == d) && likeMatchesAux fuel ps t := rfl

/-- A prefix occurrence is in particular a substring occurrence. -/
theorem containsSub_of_isPrefixOf :
    ∀ (hay pat : List Char), pat.isPrefixOf hay = true → containsSub hay pat = true := by
  intro hay pat h
  cases hay with
  | nil =>
    cases pat with
    | nil => rfl
    | cons c ps => exact Bool.noConfusion h
  | cons d t =>
    rw [containsSub, h, Bool.true_or]

/-- A wildcard-free pattern followed by `%` matches exactly the subjects
it literally prefixes. -/
theorem likeAux_isPrefixOf :
    ∀ (pat : List Char), noWild pat = true → ∀ (fuel : Nat) (hay : List Char),
      likeMatchesAux fuel (pat ++ ['%']) hay = true → pat.isPrefixOf hay = true
  | [], _, _, hay, _ => by simp [List.isPrefixOf]
  | c :: ps, hp, fuel, hay, h => by
    have hp2 : ((c == '%') = false ∧ (c == '_') = false) ∧ noWild ps = true := by
      rw [noWild, List.all_cons, Bool.and_eq_true] at hp
      refine ⟨?_, hp.2⟩
      rcases (Bool.and_eq_true _ _).mp hp.1 with ⟨h1, h2⟩
      exact ⟨by simpa using h1, by simpa using h2⟩
    cases fuel with
    | zero => exact Bool.noConfusion h
    | succ f =>
      rw [List.cons_append, likeMatchesAux_succ_cons] at h
      rw [if_neg (by simp [hp2.1.1])] at h
      cases hay with
      | nil => exact Bool.noConfusion h
      | cons d t =>
        have h2 : ((if c == '_' then true else c == d) &&
            likeMatchesAux f (ps ++ ['%']) t) = true := h
        rw [if_neg (by simp [hp2.1.2])] at h2
        rcases (Bool.and_eq_true _ _).mp h2 with ⟨hcd, hrec⟩
        have hps := likeAux_isPrefixOf ps hp2.2 f t hrec
        rw [List.isPrefixOf, hcd, hps]
        rfl

/-- For a wildcard-free query, `LIKE '%q%'` implies literal substring
containment. -/
theorem likeAux_contains :
    ∀ (fuel : Nat) (pat hay : List Char), noWild pat = true →
      likeMatchesAux fuel ('%' :: (pat ++ ['%'])) hay = true →
      containsSub hay pat = true
  | 0, _, _, _, h => by exact Bool.noConfusion h
  | f + 1, pat, hay, hp, h => by
    rw [likeMatchesAux_succ_cons, if_pos (by rfl)] at h
    rcases (Bool.or_eq_true _ _).mp h with h2 | h2
    · exact containsSub_of_isPrefixOf hay pat (likeAux_isPrefixOf pat hp f hay h2)
    · cases hay with
      | nil => exact Bool.noConfusion h2
      | cons d t =>
        have h3 : likeMatchesAux f ('%' :: (pat ++ ['%'])) t = true := h2
        have := likeAux_contains f pat t hp h3
        rw [containsSub, this, Bool.or_true]

/-- `likeAux_contains`, stated for the wrapper. -/
theorem containsSub_of_likeMatches (pat hay : List Char) (hp : noWild pat = true)
    (h : likeMatches ('%' :: (pat ++ ['%'])) hay = true) :
    containsSub hay pat = true :=
  likeAux_contains _ pat hay hp h

/-- C4 counterexample: the `LIKE` pattern is built by interpolating the
query, so the wildcard query `"_"` matches the one-character body `"a"`
although its occurrence count — and hence its relevance — is zero: the
code returns a zero-score row the claim says is excluded. -/
theorem zero_score_row_returned_counterexample :
    (keywordSearch envWild "_" 10 0 {}).map (fun r => (r.idea.id, r.relevance)) =
      [(9, 0)] ∧
    countOcc (strLower ideaWild.content) (strLower "_") = 0 :=
  ⟨by with_unfolding_all rfl, rfl⟩

/-- C4 (amended): every row a lexical search returns is scored
`min(1, occurrences(content, query)·0.1 + occurrences(title, query)·0.5)`
with case-insensitive substring counting; for a query free of the SQL
`LIKE` wildcards `%` and `_` the returned scores are strictly positive
(the `LIKE` clause excludes the zero-score candidates), while a wildcard
query can return zero-score rows; on the scenario store, searching
`"model"` returns exactly `[{id 1, score 0.1}]` and excludes id 2. -/
theorem keyword_scoring_and_wildcard_free_exclusion :
    (∀ (env : Env) (q : String) (limit offset : Nat) (f : Filters),
      ∀ r ∈ keywordSearch env q limit offset f,
      r.relevance = min 1
        ((countOcc (strLower r.idea.content) (strLower q) : ℚ) * (1 / 10) +
          (countOcc (strLower (r.idea.title.getD "")) (strLower q) : ℚ) * (1 / 2))) ∧
    (∀ (env : Env) (q : String) (limit offset : Nat) (f : Filters),
      noWild (strLower q) = true →
      ∀ r ∈ keywordSearch env q limit offset f, 0 < r.relevance) ∧
    keywordSearch envScenario "model" 10 0 {} = [rowRust] := by
  refine ⟨?_, ?_, by with_unfolding_all rfl⟩
  · intro env q limit offset f r hr
    obtain ⟨hrel, -, -⟩ := mem_keywordSearch env q limit offset f r hr
    rw [hrel]
    unfold calculateKeywordRelevance
    cases ht : r.idea.title <;> simp [ht]
  · intro env q limit offset f hq r hr
    obtain ⟨hrel, hlike, -⟩ := mem_keywordSearch env q limit offset f r hr
    rw [hrel]
    unfold calculateKeywordRelevance
    apply lt_min (by norm_num)
    unfold likeMatch at hlike
    rcases (Bool.or_eq_true _ _).mp hlike with hc | ht
    · have hc2 : 0 < countOcc (strLower r.idea.content) (strLower q) :=
        countOcc_pos _ _ (containsSub_of_likeMatches _ _ hq hc)
      have hc3 : (0 : ℚ) < countOcc (strLower r.idea.content) (strLower q) := by
        exact_mod_cast hc2
      have ht3 : (0 : ℚ) ≤ (countOcc (strLower (match r.idea.title with
          | some t => t | none => "")) (strLower q) : ℚ) := by positivity
      nlinarith
    · cases htt : r.idea.title with
      | none => rw [htt] at ht; cases ht
      | some t0 =>
        rw [htt] at ht
        have ht2 : 0 < countOcc (strLower t0) (strLower q) :=
          countOcc_pos _ _ (containsSub_of_likeMatches _ _ hq ht)
        have ht3 : (0 : ℚ) < countOcc (strLower t0) (strLower q) := by
          exact_mod_cast ht2
        have hc3 : (0 : ℚ) ≤ (countOcc (strLower r.idea.content) (strLower q) : ℚ) := by
          positivity
        dsimp only
        nlinarith

/-- C4 amended witness: scoring and positivity applied to the scenario
store's returned row with the wildcard-free query. -/
theorem keyword_scoring_and_wildcard_free_exclusion_witness :
    rowRust.relevance = min 1
      ((countOcc (strLower rowRust.idea.content) (strLower "model") : ℚ) * (1 / 10) +
        (countOcc (strLower (rowRust.idea.title.getD "")) (strLower "model") : ℚ) * (1 / 2)) ∧
    0 < rowRust.relevance :=
  ⟨keyword_scoring_and_wildcard_free_exclusion.1 envScenario "model" 10 0 {} rowRust
      (by with_unfolding_all exact List.Mem.head _),
    keyword_scoring_and_wildcard_free_exclusion.2.1 envScenario "model" 10 0 {}
      rfl rowRust (by with_unfolding_all exact List.Mem.head _)⟩

/-- C2 (amended): every lexical relevance score lies in `[0, 1]`, but the
vector retriever converts a reported distance `d` to `1 - d` with no
flooring at 0, so a distance above 1 yields a negative merged score. -/
theorem keyword_scores_clamped_vector_scores_unfloored :
    (∀ (i : Idea) (q : String),
      0 ≤ calculateKeywordRelevance i q ∧ calculateKeywordRelevance i q ≤ 1) ∧
    (∀ (env : Env) (q : String) (limit offset : Nat) (f : Filters)
      (hits : List VecHit), env.aiEnabled = true → env.offlineMode = false →
      env.vecQuery q (limit + offset) (metaFilterOf f) = .ok hits →
      ∀ r ∈ vectorSearch env q limit offset f,
        ∃ h ∈ hits, r.relevance = 1 - h.distance.getD 0) := by
  constructor
  · intro i q
    unfold calculateKeywordRelevance
    exact ⟨le_min (by norm_num) (by positivity), min_le_left _ _⟩
  · intro env q limit offset f hits hai hoff hok r hr
    obtain ⟨h, hh, hrow⟩ := mem_vectorSearch env q limit offset f hits hai hoff hok r hr
    exact ⟨h, hh, (vecRow_eq_some env f h r hrow).2.1⟩

/-- C2 amended witness: the distance-to-score conversion applied to the
concrete far hit. -/
theorem keyword_scores_clamped_vector_scores_unfloored_witness :
    ∃ h ∈ [hitFar], rowFar.relevance = 1 - h.distance.getD 0 :=
  keyword_scores_clamped_vector_scores_unfloored.2 envFarHit "q" 1 0 {} [hitFar]
    rfl rfl rfl rowFar (by with_unfolding_all exact List.Mem.head _)

/-- A keyword search returns at most `limit` rows (the SQL `LIMIT`). -/
theorem keywordSearch_length_le (env : Env) (q : String) (limit offset : Nat)
    (f : Filters) : (keywordSearch env q limit offset f).length ≤ limit := by
  unfold keywordSearch sortByRelevanceDesc
  rw [(List.perm_insertionSort _ _).length_eq, List.length_map]
  exact List.length_take_le _ _

/-- A vector search returns at most `limit` rows on every branch. -/
theorem vectorSearch_length_le (env : Env) (q : String) (limit offset : Nat)
    (f : Filters) : (vectorSearch env q limit offset f).length ≤ limit := by
  unfold vectorSearch
  split
  · exact keywordSearch_length_le env q limit offset f
  · split
    · exact keywordSearch_length_le env q limit offset f
    · exact le_trans (List.length_filterMap_le _ _) (List.length_take_le _ _)

theorem insertVecRow_length_le (acc : List SearchRow) (v : SearchRow) :
    (insertVecRow acc v).length ≤ acc.length + 1 := by
  unfold insertVecRow
  split
  · rw [List.length_map]; omega
  · rw [List.length_append]; simp

/-- The merge dict has at most one entry per sub-result row. -/
theorem mergeResults_length_le (kw vec : List SearchRow) :
    (mergeResults kw vec).length ≤ kw.length + vec.length := by
  unfold mergeResults
  have main : ∀ (vec acc : List SearchRow),
      (vec.foldl insertVecRow acc).length ≤ acc.length + vec.length := by
    intro vec
    induction vec with
    | nil => intro acc; simp
    | cons v vs ih =>
      intro acc
      rw [List.foldl_cons]
      calc (vs.foldl insertVecRow (insertVecRow acc v)).length
          ≤ (insertVecRow acc v).length + vs.length := ih _
        _ ≤ (acc.length + 1) + vs.length := by
            have := insertVecRow_length_le acc v; omega
        _ = acc.length + (vs.length + 1) := by omega
        _ = acc.length + (v :: vs).length := by simp
  calc (vec.foldl insertVecRow (addKeywordRows kw)).length
      ≤ (addKeywordRows kw).length + vec.length := main vec _
    _ = kw.length + vec.length := by unfold addKeywordRows; rw [List.length_map]

/-- C3 (amended): with AI available, hybrid search grants each retriever
only `limit` candidates (offset 0), stable-sorts the merged union by score
descending, and applies offset/limit as a final slice — so the output is
score-sorted and the merged union holds at most `2·limit` candidates,
making five merged results unreachable at `limit = 2`. -/
theorem hybrid_sorts_then_slices (env : Env) (q : String) (limit offset : Nat)
    (f : Filters) (hai : env.aiEnabled = true) (hoff : env.offlineMode = false) :
    hybridSearch env q limit offset f =
      ((sortByRelevanceDesc (mergeResults (keywordSearch env q limit 0 f)
        (vectorSearch env q limit 0 f))).drop offset).take limit ∧
    List.Sorted (fun a b : SearchRow => b.relevance ≤ a.relevance)
      (hybridSearch env q limit offset f) ∧
    (mergeResults (keywordSearch env q limit 0 f)
      (vectorSearch env q limit 0 f)).length ≤ limit + limit := by
  have heq : hybridSearch env q limit offset f =
      ((sortByRelevanceDesc (mergeResults (keywordSearch env q limit 0 f)
        (vectorSearch env q limit 0 f))).drop offset).take limit := by
    unfold hybridSearch
    rw [hai, hoff]
    simp
  refine ⟨heq, ?_, ?_⟩
  · rw [heq]
    haveI : IsTotal SearchRow (fun a b => b.relevance ≤ a.relevance) :=
      ⟨fun a b => le_total b.relevance a.relevance⟩
    haveI : IsTrans SearchRow (fun a b => b.relevance ≤ a.relevance) :=
      ⟨fun _ _ _ hab hbc => le_trans hbc hab⟩
    have hs : List.Sorted (fun a b : SearchRow => b.relevance ≤ a.relevance)
        (sortByRelevanceDesc (mergeResults (keywordSearch env q limit 0 f)
          (vectorSearch env q limit 0 f))) :=
      List.sorted_insertionSort _ _
    exact List.Pairwise.sublist
      ((List.take_sublist _ _).trans (List.drop_sublist _ _)) hs
  · calc (mergeResults (keywordSearch env q limit 0 f)
        (vectorSearch env q limit 0 f)).length
        ≤ (keywordSearch env q limit 0 f).length +
            (vectorSearch env q limit 0 f).length := mergeResults_length_le _ _
      _ ≤ limit + limit := by
          have h1 := keywordSearch_length_le env q limit 0 f
          have h2 := vectorSearch_length_le env q limit 0 f
          omega

/-- C3 amended witness: the slice-last behaviour at the pagination
environment with `limit = 2, offset = 2`. -/
theorem hybrid_sorts_then_slices_witness :
    hybridSearch envPag "a" 2 2 {} =
      ((sortByRelevanceDesc (mergeResults (keywordSearch envPag "a" 2 0 {})
        (vectorSearch envPag "a" 2 0 {}))).drop 2).take 2 ∧
    List.Sorted (fun a b : SearchRow => b.relevance ≤ a.relevance)
      (hybridSearch envPag "a" 2 2 {}) ∧
    (mergeResults (keywordSearch envPag "a" 2 0 {})
      (vectorSearch envPag "a" 2 0 {})).length ≤ 2 + 2 :=
  hybrid_sorts_then_slices envPag "a" 2 2 {} rfl rfl

/-- C5: when AI is disabled or the system is offline, vector-mode search
returns exactly the same result list as keyword-mode search on identical
query, limit, offset and filters. -/
theorem vector_mode_equals_keyword_mode_when_degraded
    (env : Env) (q : String) (limit offset : Nat) (f : Filters)
    (h : env.aiEnabled = false ∨ env.offlineMode = true) :
    search env q .vector limit offset f = search env q .keyword limit offset f := by
  by_cases hq : q = ""
  · simp [search, hq]
  · simp only [search, hq, if_false, vectorSearch]
    rcases h with h | h <;> simp [h]

/-- C5 witness: the degradation equality at a concrete offline store. -/
theorem vector_mode_equals_keyword_mode_when_degraded_witness :
    search envScenario "model" .vector 10 0 {} =
      search envScenario "model" .keyword 10 0 {} :=
  vector_mode_equals_keyword_mode_when_degraded envScenario "model" 10 0 {}
    (Or.inl rfl)

/-- C6 counterexample: with a vector index that raises on every query, the
engine's vector path returns the non-empty keyword results instead of an
empty result set, refuting the claim at this concrete input. -/
theorem vector_error_substitutes_keyword_counterexample :
    envIdxErr.vecQuery "x" (5 + 0) (metaFilterOf {}) = .error () ∧
    vectorSearch envIdxErr "x" 5 0 {} = keywordSearch envIdxErr "x" 5 0 {} ∧
    keywordSearch envIdxErr "x" 5 0 {} ≠ [] := by
  refine ⟨rfl, by with_unfolding_all rfl, ?_⟩
  with_unfolding_all exact List.cons_ne_nil _ _

/-- C6 (amended): if the vector index or embedding call errors, the
engine's vector path falls back to keyword search on the same inputs
(substituting lexical results) rather than returning an empty set. -/
theorem vector_error_falls_back_to_keyword
    (env : Env) (q : String) (limit offset : Nat) (f : Filters)
    (hai : env.aiEnabled = true) (hoff : env.offlineMode = false)
    (herr : env.vecQuery q (limit + offset) (metaFilterOf f) = .error ()) :
    vectorSearch env q limit offset f = keywordSearch env q limit offset f := by
  simp [vectorSearch, hai, hoff, herr]

/-- C6 amended witness: the fallback equality at a concrete erroring
index. -/
theorem vector_error_falls_back_to_keyword_witness :
    vectorSearch envIdxErr "x" 5 0 {} = keywordSearch envIdxErr "x" 5 0 {} :=
  vector_error_falls_back_to_keyword envIdxErr "x" 5 0 {} rfl rfl rfl

/-- C10 counterexample: for the empty string the embedding facade returns
`None`, not a zero vector of the configured dimension 1536. -/
theorem embed_empty_returns_none_counterexample :
    generateEmbedding aiUnavailable "" = none ∧
    generateEmbedding aiUnavailable "" ≠ some (List.replicate 1536 (0 : ℝ)) := by
  have h : generateEmbedding aiUnavailable "" = none := by simp [generateEmbedding]
  exact ⟨h, fun hc => Option.noConfusion (h ▸ hc)⟩

/-- C10 (amended): `generate_embedding` never raises for empty input — for
the empty string it returns `None` (not a zero vector), whatever the
remote provider would answer. -/
theorem embed_empty_input_returns_none (ai : String → Option (List ℝ)) :
    generateEmbedding ai "" = none := by
  simp [generateEmbedding]

/-- C2 counterexample: a vector index reporting distance 5/2 makes the
merged hybrid result carry relevance −3/2, outside `[0, 1]`: the code
computes `1.0 - d` with no flooring at 0. -/
theorem negative_score_counterexample :
    (hybridSearch envFarHit "q" 1 0 {}).map (fun r => r.relevance) = [-(3 / 2)] ∧
    (-(3 / 2) : ℚ) < 0 := by
  constructor
  · with_unfolding_all rfl
  · norm_num

/-- C3 counterexample: over a store of three ideas matching the query, the
code's hybrid search with `limit = 2, offset = 2` grants each retriever
only `limit` candidates and returns nothing, whereas the claimed algorithm
(each retriever granted `limit + offset`) returns the rank-2 result. -/
theorem hybrid_limit_grant_counterexample :
    hybridSearch envPag "a" 2 2 {} = [] ∧
    (specHybridSearch envPag "a" 2 2 {}).map (fun r => r.idea.id) = [3] ∧
    specHybridSearch envPag "a" 2 2 {} ≠ [] := by
  refine ⟨by with_unfolding_all rfl, by with_unfolding_all rfl, ?_⟩
  with_unfolding_all exact List.cons_ne_nil _ _

/-- C7 counterexample: under the tag filter `[1, 2]`, an idea carrying
only tag 1 passes the lexical path (ANY-overlap SQL clause) but is dropped
by the vector path (subset check), and it reaches the merged hybrid result
through the lexical path — the filters are not applied identically. -/
theorem filters_not_identical_counterexample :
    (keywordSearch envOneTag "x" 10 0 filtersTwoTags).map (fun r => r.idea.id) = [1] ∧
    vectorSearch envOneTag "x" 10 0 filtersTwoTags = [] ∧
    (hybridSearch envOneTag "x" 10 0 filtersTwoTags).map (fun r => r.idea.id) = [1] := by
  refine ⟨by with_unfolding_all rfl, by with_unfolding_all rfl, by with_unfolding_all rfl⟩

/-- C8 counterexample: with one curated relation 1 → 2 and the vector tier
returning idea 2 again, `get_related_ideas` returns id 2 twice — the
vector tier does not exclude ideas already chosen by the relations tier. -/
theorem related_duplicate_counterexample :
    (getRelatedIdeas envDupRel 1 3).map (fun i => i.id) = [2, 2, 3] ∧
    ¬ ((getRelatedIdeas envDupRel 1 3).map (fun i => i.id)).Nodup := by
  refine ⟨by with_unfolding_all rfl, ?_⟩
  rw [show (getRelatedIdeas envDupRel 1 3).map (fun i => i.id) = [2, 2, 3] by
    with_unfolding_all rfl]
  decide

/-- A found idea's id is the id it was looked up by. -/
theorem getIdea_id (env : Env) (i : Nat) (idea : Idea)
    (h : getIdea env i = some idea) : idea.id = i := by
  have := List.find?_some h
  simpa using this

/-- Unpacking membership in the tag tier: the candidate is a store row
sharing a tag with the source, distinct from the source and from every
excluded id. -/
theorem mem_relatedTagResults (env : Env) (src : Idea) (excl : List Nat)
    (rem : Nat) (r : Idea) (hr : r ∈ relatedTagResults env src excl rem) :
    r ∈ env.ideas ∧ 0 < sharedTagCount src r ∧ r.id ≠ src.id ∧ r.id ∉ excl := by
  unfold relatedTagResults at hr
  have h2 := (List.take_sublist _ _).subset hr
  have h3 := (List.perm_insertionSort _ _).mem_iff.mp h2
  have h4 := List.of_mem_filter h3
  simp only [Bool.and_eq_true, decide_eq_true_eq, bne_iff_ne, ne_eq] at h4
  exact ⟨List.mem_of_mem_filter h3, h4.1.1, h4.1.2, by simpa using h4.2⟩

/-- C7 (amended): the archived filter and the tag filter are honoured on
the lexical path, where the tag clause admits an idea carrying ANY
requested tag; the vector path instead requires ALL requested tags
(checked after retrieval), so the two paths do not apply the tag filter
identically. -/
theorem tag_filter_any_lexical_all_vector :
    (∀ (env : Env) (q : String) (limit offset : Nat) (f : Filters) (ts : List Nat),
      f.tagIds = some ts → ts ≠ [] →
      ∀ r ∈ keywordSearch env q limit offset f, ∃ t ∈ ts, t ∈ r.idea.tags) ∧
    (∀ (env : Env) (q : String) (limit offset : Nat) (f : Filters) (b : Bool),
      f.isArchived = some b →
      ∀ r ∈ keywordSearch env q limit offset f, r.idea.isArchived = b) ∧
    (∀ (env : Env) (q : String) (limit offset : Nat) (f : Filters)
      (ts : List Nat) (hits : List VecHit),
      f.tagIds = some ts → ts ≠ [] →
      env.aiEnabled = true → env.offlineMode = false →
      env.vecQuery q (limit + offset) (metaFilterOf f) = .ok hits →
      ∀ r ∈ vectorSearch env q limit offset f, ∀ t ∈ ts, t ∈ r.idea.tags) := by
  refine ⟨?_, ?_, ?_⟩
  · intro env q limit offset f ts hts hne r hr
    obtain ⟨-, -, hf⟩ := mem_keywordSearch env q limit offset f r hr
    unfold rowFilter at hf
    rw [hts] at hf
    have h3 := ((Bool.and_eq_true _ _).mp hf).2
    dsimp only at h3
    rw [if_neg (by simpa [List.isEmpty_iff] using hne)] at h3
    rcases List.any_eq_true.mp h3 with ⟨t, htmem, hcont⟩
    exact ⟨t, htmem, by simpa using hcont⟩
  · intro env q limit offset f b hb r hr
    obtain ⟨-, -, hf⟩ := mem_keywordSearch env q limit offset f r hr
    unfold rowFilter at hf
    rw [hb] at hf
    have h1 := ((Bool.and_eq_true _ _).mp ((Bool.and_eq_true _ _).mp hf).1).1
    dsimp only at h1
    exact eq_of_beq h1
  · intro env q limit offset f ts hits hts hne hai hoff hok r hr
    obtain ⟨h, hh, hrow⟩ := mem_vectorSearch env q limit offset f hits hai hoff hok r hr
    exact (vecRow_eq_some env f h r hrow).2.2 ts hts hne

/-- C7 amended witness: the ANY-side at `envOneTag` and the ALL-side at
`envSubset`, both under the two-tag filter. -/
theorem tag_filter_any_lexical_all_vector_witness :
    (∃ t ∈ [1, 2], t ∈ rowOneTag.idea.tags) ∧
    (∀ t ∈ [1, 2], t ∈ rowTwoTags.idea.tags) :=
  ⟨tag_filter_any_lexical_all_vector.1 envOneTag "x" 10 0 filtersTwoTags [1, 2]
      rfl (by decide) rowOneTag (by with_unfolding_all exact List.Mem.head _),
    tag_filter_any_lexical_all_vector.2.2 envSubset "x" 10 0 filtersTwoTags [1, 2]
      [hitTwoTags] rfl (by decide) rfl rfl rfl rowTwoTags
      (by with_unfolding_all exact List.Mem.head _)⟩

/-- When the vector tier is unavailable (AI off, offline, or an erroring
index) and the relations tier is short, `get_related_ideas` is the tag
branch. -/
theorem getRelatedIdeas_eq_tagBranch (env : Env) (ideaId limit : Nat) (idea : Idea)
    (hg : getIdea env ideaId = some idea)
    (hshort : ¬ limit ≤ (relatedFromRelations env ideaId limit).length)
    (hvec : env.aiEnabled = false ∨ env.offlineMode = true ∨
      ∀ (s : String) (n : Nat), env.vecQuery s n none = .error ()) :
    getRelatedIdeas env ideaId limit =
      if idea.tags.isEmpty then relatedFromRelations env ideaId limit
      else (relatedFromRelations env ideaId limit ++
        relatedTagResults env idea
          ((relatedFromRelations env ideaId limit).map (fun i => i.id))
          (limit - (relatedFromRelations env ideaId limit).length)).take limit := by
  unfold getRelatedIdeas
  rw [hg]
  dsimp only
  rw [if_neg hshort]
  rcases hvec with h | h | h
  · rw [h]; simp
  · rw [h]; simp
  · by_cases hcond : (env.aiEnabled && !env.offlineMode) = true
    · rw [if_pos hcond, h]
    · rw [if_neg hcond]

/-- When the vector tier runs and the index answers, `get_related_ideas`
returns the relations tier plus the resolved neighbours — the tag tier is
never consulted. -/
theorem getRelatedIdeas_eq_vecBranch (env : Env) (ideaId limit : Nat) (idea : Idea)
    (hits : List VecHit)
    (hg : getIdea env ideaId = some idea)
    (hshort : ¬ limit ≤ (relatedFromRelations env ideaId limit).length)
    (hai : env.aiEnabled = true) (hoff : env.offlineMode = false)
    (hok : env.vecQuery idea.content
      (limit - (relatedFromRelations env ideaId limit).length + 1) none = .ok hits) :
    getRelatedIdeas env ideaId limit =
      (relatedFromRelations env ideaId limit ++
        relatedVecResults env ideaId
          (limit - (relatedFromRelations env ideaId limit).length) hits).take limit := by
  unfold getRelatedIdeas
  rw [hg]
  dsimp only
  rw [if_neg hshort, hai, hoff]
  simp only [Bool.not_false, Bool.and_true, if_true]
  rw [hok]
  rfl

/-- C8 (amended): when the vector tier is skipped or fails, the results
never contain the source idea and never repeat an id, provided the store
ids are unique and the curated relations tier is itself duplicate-free and
source-free; the vector tier, when it runs, excludes the source but may
repeat relations-tier ids. -/
theorem related_nodup_without_vector_tier (env : Env) (ideaId limit : Nat)
    (h1 : ((relatedFromRelations env ideaId limit).map (fun i => i.id)).Nodup)
    (h2 : ideaId ∉ (relatedFromRelations env ideaId limit).map (fun i => i.id))
    (hids : (env.ideas.map (fun i => i.id)).Nodup)
    (hvec : env.aiEnabled = false ∨ env.offlineMode = true ∨
      ∀ (s : String) (n : Nat), env.vecQuery s n none = .error ()) :
    ((getRelatedIdeas env ideaId limit).map (fun i => i.id)).Nodup ∧
    ideaId ∉ (getRelatedIdeas env ideaId limit).map (fun i => i.id) := by
  cases hg : getIdea env ideaId with
  | none => unfold getRelatedIdeas; rw [hg]; simp
  | some idea =>
    by_cases hfull : limit ≤ (relatedFromRelations env ideaId limit).length
    · have heq : getRelatedIdeas env ideaId limit =
          (relatedFromRelations env ideaId limit).take limit := by
        unfold getRelatedIdeas; rw [hg]; dsimp only; rw [if_pos hfull]
      rw [heq, List.map_take]
      exact ⟨List.Nodup.sublist (List.take_sublist _ _) h1,
        fun hm => h2 ((List.take_sublist _ _).subset hm)⟩
    · rw [getRelatedIdeas_eq_tagBranch env ideaId limit idea hg hfull hvec]
      by_cases htags : idea.tags.isEmpty
      · rw [if_pos htags]; exact ⟨h1, h2⟩
      · rw [if_neg htags]
        have hsrc : idea.id = ideaId := getIdea_id env ideaId idea hg
        set tagRes := relatedTagResults env idea
          ((relatedFromRelations env ideaId limit).map (fun i => i.id))
          (limit - (relatedFromRelations env ideaId limit).length) with htr
        have hnodupTag : (tagRes.map (fun i => i.id)).Nodup := by
          rw [htr]
          unfold relatedTagResults
          apply List.Nodup.sublist (List.Sublist.map _ (List.take_sublist _ _))
          apply List.Perm.nodup (List.Perm.map _ (List.perm_insertionSort _ _)).symm
          exact List.Nodup.sublist (List.Sublist.map _ (List.filter_sublist _)) hids
        have hfull2 : ((relatedFromRelations env ideaId limit ++ tagRes).map
            (fun i => i.id)).Nodup := by
          rw [List.map_append]
          apply List.Nodup.append h1 hnodupTag
          intro a ha hb
          rcases List.mem_map.mp hb with ⟨r, hrmem, hrid⟩
          have hne := (mem_relatedTagResults env idea _ _ r (htr ▸ hrmem)).2.2.2
          rw [← hrid] at ha
          exact hne ha
        have hsrc2 : ideaId ∉ ((relatedFromRelations env ideaId limit ++ tagRes).map
            (fun i => i.id)) := by
          rw [List.map_append]
          intro hm
          rcases List.mem_append.mp hm with hm | hm
          · exact h2 hm
          · rcases List.mem_map.mp hm with ⟨r, hrmem, hrid⟩
            have hne := (mem_relatedTagResults env idea _ _ r (htr ▸ hrmem)).2.2.1
            rw [hsrc] at hne
            exact hne hrid
        rw [List.map_take]
        exact ⟨List.Nodup.sublist (List.take_sublist _ _) hfull2,
          fun hm => hsrc2 ((List.take_sublist _ _).subset hm)⟩

/-- C8 amended witness: the no-duplicate and no-source conclusion at the
AI-off tag-overlap store. -/
theorem related_nodup_without_vector_tier_witness :
    ((getRelatedIdeas envVecOff 1 2).map (fun i => i.id)).Nodup ∧
    1 ∉ (getRelatedIdeas envVecOff 1 2).map (fun i => i.id) :=
  related_nodup_without_vector_tier envVecOff 1 2
    (by with_unfolding_all exact List.nodup_nil)
    (by with_unfolding_all exact List.not_mem_nil _)
    (by decide) (Or.inl rfl)

/-- C9 (amended): with the relations tier short and the source tagged, the
tag tier fills the remaining slots (with ideas sharing at least one tag,
never the source) exactly when the vector tier was skipped (AI off or
offline) or its index raised; when the vector query returns normally —
even with zero hits — its output is final and the tag tier never runs. -/
theorem tag_tier_only_after_vector_failure (env : Env) (ideaId limit : Nat)
    (idea : Idea) (hg : getIdea env ideaId = some idea)
    (hshort : (relatedFromRelations env ideaId limit).length < limit)
    (htags : idea.tags ≠ []) :
    ((env.aiEnabled = false ∨ env.offlineMode = true ∨
        ∀ (s : String) (n : Nat), env.vecQuery s n none = .error ()) →
      getRelatedIdeas env ideaId limit =
        (relatedFromRelations env ideaId limit ++
          relatedTagResults env idea
            ((relatedFromRelations env ideaId limit).map (fun i => i.id))
            (limit - (relatedFromRelations env ideaId limit).length)).take limit ∧
      ∀ r ∈ relatedTagResults env idea
          ((relatedFromRelations env ideaId limit).map (fun i => i.id))
          (limit - (relatedFromRelations env ideaId limit).length),
        0 < sharedTagCount idea r ∧ r.id ≠ ideaId) ∧
    (∀ hits : List VecHit, env.aiEnabled = true → env.offlineMode = false →
      env.vecQuery idea.content
        (limit - (relatedFromRelations env ideaId limit).length + 1) none = .ok hits →
      getRelatedIdeas env ideaId limit =
        (relatedFromRelations env ideaId limit ++
          relatedVecResults env ideaId
            (limit - (relatedFromRelations env ideaId limit).length) hits).take limit) := by
  have hs : ¬ limit ≤ (relatedFromRelations env ideaId limit).length := by omega
  constructor
  · intro hvec
    constructor
    · rw [getRelatedIdeas_eq_tagBranch env ideaId limit idea hg hs hvec,
        if_neg (by simpa [List.isEmpty_iff] using htags)]
    · intro r hr
      have h := mem_relatedTagResults env idea _ _ r hr
      exact ⟨h.2.1, by rw [← getIdea_id env ideaId idea hg]; exact h.2.2.1⟩
  · intro hits hai hoff hok
    exact getRelatedIdeas_eq_vecBranch env ideaId limit idea hits hg hs hai hoff hok

/-- C9 amended witness: the characterisation applied at the AI-off
tag-overlap store. -/
theorem tag_tier_only_after_vector_failure_witness :
    ((envVecOff.aiEnabled = false ∨ envVecOff.offlineMode = true ∨
        ∀ (s : String) (n : Nat), envVecOff.vecQuery s n none = .error ()) →
      getRelatedIdeas envVecOff 1 2 =
        (relatedFromRelations envVecOff 1 2 ++
          relatedTagResults envVecOff ideaTagSrc
            ((relatedFromRelations envVecOff 1 2).map (fun i => i.id))
            (2 - (relatedFromRelations envVecOff 1 2).length)).take 2 ∧
      ∀ r ∈ relatedTagResults envVecOff ideaTagSrc
          ((relatedFromRelations envVecOff 1 2).map (fun i => i.id))
          (2 - (relatedFromRelations envVecOff 1 2).length),
        0 < sharedTagCount ideaTagSrc r ∧ r.id ≠ 1) ∧
    (∀ hits : List VecHit, envVecOff.aiEnabled = true → envVecOff.offlineMode = false →
      envVecOff.vecQuery ideaTagSrc.content
        (2 - (relatedFromRelations envVecOff 1 2).length + 1) none = .ok hits →
      getRelatedIdeas envVecOff 1 2 =
        (relatedFromRelations envVecOff 1 2 ++
          relatedVecResults envVecOff 1
            (2 - (relatedFromRelations envVecOff 1 2).length) hits).take 2) :=
  tag_tier_only_after_vector_failure envVecOff 1 2 ideaTagSrc
    (by with_unfolding_all rfl)
    (by with_unfolding_all exact Nat.succ_pos 1)
    (by decide)

/-- C9 counterexample: the relations tier is empty, the vector tier
succeeds with zero hits, and a tag-overlap candidate exists, yet the code
returns nothing — the tag tier runs only when the vector tier was skipped
or raised (the same store with AI disabled does return the candidate). -/
theorem tag_tier_skipped_counterexample :
    getRelatedIdeas envVecEmpty 1 2 = [] ∧
    (relatedTagResults envVecEmpty ideaTagSrc [] 2).map (fun i => i.id) = [2] ∧
    (getRelatedIdeas envVecOff 1 2).map (fun i => i.id) = [2] := by
  refine ⟨by with_unfolding_all rfl, by with_unfolding_all rfl, by with_unfolding_all rfl⟩

/-- One vector-loop step when the id is already present: pointwise update. -/
theorem insertVecRow_pos (acc : List SearchRow) (v : SearchRow)
    (h : acc.any (fun r => r.idea.id == v.idea.id) = true) :
    insertVecRow acc v =
      acc.map (fun r => if r.idea.id == v.idea.id then updRow r v else r) := by
  unfold insertVecRow updRow
  rw [if_pos h]

/-- One vector-loop step when the id is new: append a vector-tagged row. -/
theorem insertVecRow_neg (acc : List SearchRow) (v : SearchRow)
    (h : acc.any (fun r => r.idea.id == v.idea.id) = false) :
    insertVecRow acc v = acc ++ [tagVecRow v] := by
  unfold insertVecRow tagVecRow
  rw [if_neg (by simp [h])]

/-- The vector loop of the merge equals its closed form when ids are
duplicate-free on both sides. -/
theorem foldl_insertVecRow_eq :
    ∀ (vec acc : List SearchRow),
      (acc.map (fun r => r.idea.id)).Nodup →
      (vec.map (fun r => r.idea.id)).Nodup →
      vec.foldl insertVecRow acc = mergeSpec acc vec
  | [], acc, _, _ => by
      simp [mergeSpec]
  | b :: bs, acc, hacc, hvec => by
      rw [List.foldl_cons]
      have hvc : b.idea.id ∉ bs.map (fun r => r.idea.id) ∧
          (bs.map (fun r => r.idea.id)).Nodup := by
        rw [List.map_cons, List.nodup_cons] at hvec
        exact hvec
      by_cases hmem : acc.any (fun r => r.idea.id == b.idea.id) = true
      · rw [insertVecRow_pos acc b hmem]
        have hids : ((acc.map (fun r => if r.idea.id == b.idea.id then updRow r b else r)).map
            (fun r => r.idea.id)) = acc.map (fun r => r.idea.id) := by
          rw [List.map_map]
          apply List.map_congr_left
          intro a _
          show (if a.idea.id == b.idea.id then updRow a b else a).idea.id = a.idea.id
          split <;> rfl
        rw [foldl_insertVecRow_eq bs _ (by rw [hids]; exact hacc) hvc.2]
        unfold mergeSpec
        congr 1
        · rw [List.map_map]
          apply List.map_congr_left
          intro a ha
          show (match bs.find? (fun x =>
              ((if a.idea.id == b.idea.id then updRow a b else a)).idea.id == x.idea.id) with
            | some c => updRow (if a.idea.id == b.idea.id then updRow a b else a) c
            | none => (if a.idea.id == b.idea.id then updRow a b else a)) =
            (match (b :: bs).find? (fun x => a.idea.id == x.idea.id) with
            | some c => updRow a c
            | none => a)
          by_cases hab : (a.idea.id == b.idea.id) = true
          · rw [if_pos hab]
            have haeq : a.idea.id = b.idea.id := by simpa using hab
            have hnone : bs.find? (fun x => (updRow a b).idea.id == x.idea.id) = none := by
              apply List.find?_eq_none.mpr
              intro x hx
              show ¬((updRow a b).idea.id == x.idea.id) = true
              simp only [updRow, beq_iff_eq]
              intro hax
              exact hvc.1 (by rw [← haeq, hax]; exact List.mem_map_of_mem _ hx)
            rw [hnone,
              List.find?_cons_of_pos (p := fun x : SearchRow => a.idea.id == x.idea.id) _ hab]
          · rw [if_neg hab,
              List.find?_cons_of_neg (p := fun x : SearchRow => a.idea.id == x.idea.id) _ hab]
        · rw [List.filter_cons, if_neg (by simp [hmem])]
          congr 1
          apply List.filter_congr
          intro x _
          have hany : ((acc.map (fun r => if r.idea.id == b.idea.id then updRow r b else r)).any
              (fun a => a.idea.id == x.idea.id)) = acc.any (fun a => a.idea.id == x.idea.id) := by
            rw [Bool.eq_iff_iff, List.any_eq_true, List.any_eq_true]
            constructor
            · rintro ⟨a, ha, hpa⟩
              rcases List.mem_map.mp ha with ⟨a0, ha0, rfl⟩
              split at hpa <;> exact ⟨a0, ha0, hpa⟩
            · rintro ⟨a0, ha0, hpa⟩
              refine ⟨_, List.mem_map_of_mem _ ha0, ?_⟩
              show ((if a0.idea.id == b.idea.id then updRow a0 b else a0).idea.id == x.idea.id) = true
              split <;> exact hpa
          rw [hany]
      · have hmem2 : acc.any (fun r => r.idea.id == b.idea.id) = false := by
          simpa using hmem
        rw [insertVecRow_neg acc b hmem2]
        have hnotin : b.idea.id ∉ acc.map (fun r => r.idea.id) := by
          intro hin
          rcases List.mem_map.mp hin with ⟨r, hr, hrid⟩
          exact hmem (List.any_eq_true.mpr ⟨r, hr, by simp [hrid]⟩)
        have hacc2 : ((acc ++ [tagVecRow b]).map (fun r => r.idea.id)).Nodup := by
          rw [List.map_append]
          apply List.Nodup.append hacc (by simp)
          intro a ha hb2
          simp only [List.map_cons, List.map_nil, List.mem_singleton] at hb2
          rw [hb2] at ha
          exact hnotin ha
        rw [foldl_insertVecRow_eq bs _ hacc2 hvc.2]
        unfold mergeSpec
        rw [List.map_append]
        have hone : ([tagVecRow b].map (fun a =>
            match bs.find? (fun x => a.idea.id == x.idea.id) with
            | some c => updRow a c
            | none => a)) = [tagVecRow b] := by
          simp only [List.map_cons, List.map_nil]
          have hnone : bs.find? (fun x => (tagVecRow b).idea.id == x.idea.id) = none := by
            apply List.find?_eq_none.mpr
            intro x hx
            show ¬((tagVecRow b).idea.id == x.idea.id) = true
            simp only [tagVecRow, beq_iff_eq]
            intro hax
            exact hvc.1 (by rw [hax]; exact List.mem_map_of_mem _ hx)
          rw [hnone]
        rw [hone]
        have hfilter : bs.filter (fun x =>
            !(acc ++ [tagVecRow b]).any (fun a => a.idea.id == x.idea.id)) =
            bs.filter (fun x => !acc.any (fun a => a.idea.id == x.idea.id)) := by
          apply List.filter_congr
          intro x hx
          rw [List.any_append]
          have hsing : ([tagVecRow b].any (fun a => a.idea.id == x.idea.id)) = false := by
            simp only [List.any_cons, List.any_nil, Bool.or_false]
            rw [Bool.eq_false_iff]
            intro hbx
            have hbx2 : b.idea.id = x.idea.id := by simpa [tagVecRow] using hbx
            exact hvc.1 (by rw [hbx2]; exact List.mem_map_of_mem _ hx)
          rw [hsing, Bool.or_false]
        rw [hfilter]
        have hmap : acc.map (fun a =>
            match bs.find? (fun x => a.idea.id == x.idea.id) with
            | some c => updRow a c
            | none => a) = acc.map (fun a =>
            match (b :: bs).find? (fun x => a.idea.id == x.idea.id) with
            | some c => updRow a c
            | none => a) := by
          apply List.map_congr_left
          intro a ha
          have hane : ¬(a.idea.id == b.idea.id) = true := by
            intro hab
            have hab2 : a.idea.id = b.idea.id := by simpa using hab
            exact hnotin (by rw [← hab2]; exact List.mem_map_of_mem _ ha)
          rw [List.find?_cons_of_neg (p := fun x : SearchRow => a.idea.id == x.idea.id) _ hane]
        rw [hmap]
        rw [List.filter_cons, if_pos (by simp [hmem2])]
        simp [List.append_assoc]

/-- With duplicate-free ids, `find?` by id returns exactly the member
carrying that id. -/
theorem find?_id_eq_some (vec : List SearchRow)
    (hvec : (vec.map (fun r => r.idea.id)).Nodup)
    (b : SearchRow) (hb : b ∈ vec) (n : Nat) (hn : n = b.idea.id) :
    vec.find? (fun x => n == x.idea.id) = some b := by
  induction vec with
  | nil => cases hb
  | cons c cs ih =>
    have hv2 : c.idea.id ∉ cs.map (fun r => r.idea.id) ∧
        (cs.map (fun r => r.idea.id)).Nodup := by
      rw [List.map_cons, List.nodup_cons] at hvec
      exact hvec
    rcases List.mem_cons.mp hb with rfl | hb2
    · rw [List.find?_cons_of_pos (p := fun x : SearchRow => n == x.idea.id) _ (by simp [hn])]
    · have hne : ¬(n == c.idea.id) = true := by
        simp only [beq_iff_eq]
        intro heq
        apply hv2.1
        rw [← heq, hn]
        exact List.mem_map_of_mem _ hb2
      rw [List.find?_cons_of_neg (p := fun x : SearchRow => n == x.idea.id) _ hne]
      exact ih hv2.2 hb2

/-- C1: for sub-results with duplicate-free ids, every idea id appearing
in both the lexical and the vector sub-results is merged with score
`max(sL, sV)` (never an average) and source `both`; and a merged row has
source `both` if and only if its id appeared in both retrieval paths. -/
theorem hybrid_merge_max_and_both (kw vec : List SearchRow)
    (hkw : (kw.map (fun r => r.idea.id)).Nodup)
    (hvec : (vec.map (fun r => r.idea.id)).Nodup) :
    (∀ a ∈ kw, ∀ b ∈ vec, a.idea.id = b.idea.id →
      ∃ r ∈ mergeResults kw vec, r.idea.id = a.idea.id ∧
        r.relevance = max a.relevance b.relevance ∧
        r.source = some Source.both) ∧
    (∀ r ∈ mergeResults kw vec,
      (r.source = some Source.both ↔
        (∃ a ∈ kw, a.idea.id = r.idea.id) ∧ (∃ b ∈ vec, b.idea.id = r.idea.id))) := by
  have hids : ((addKeywordRows kw).map (fun r => r.idea.id)) =
      kw.map (fun r => r.idea.id) := by
    unfold addKeywordRows
    rw [List.map_map]
    rfl
  have hmr : mergeResults kw vec = mergeSpec (addKeywordRows kw) vec := by
    unfold mergeResults
    exact foldl_insertVecRow_eq vec (addKeywordRows kw) (by rw [hids]; exact hkw) hvec
  constructor
  · intro a ha b hb hab
    rw [hmr]
    unfold mergeSpec
    have ha'mem : ({ a with source := some Source.keyword } : SearchRow) ∈
        addKeywordRows kw := by
      unfold addKeywordRows
      exact List.mem_map_of_mem _ ha
    have hfind : vec.find? (fun x =>
        ({ a with source := some Source.keyword } : SearchRow).idea.id == x.idea.id) =
        some b :=
      find?_id_eq_some vec hvec b hb _ hab
    refine ⟨updRow { a with source := some Source.keyword } b, ?_, rfl, rfl, rfl⟩
    apply List.mem_append_left
    have hm := List.mem_map_of_mem (fun a : SearchRow =>
      match vec.find? (fun x => a.idea.id == x.idea.id) with
      | some c => updRow a c
      | none => a) ha'mem
    dsimp only at hm
    rw [hfind] at hm
    exact hm
  · intro r hr
    rw [hmr] at hr
    unfold mergeSpec at hr
    rcases List.mem_append.mp hr with hr2 | hr2
    · rcases List.mem_map.mp hr2 with ⟨a', ha', hfa⟩
      unfold addKeywordRows at ha'
      rcases List.mem_map.mp ha' with ⟨a, ha, rfl⟩
      cases hfind : vec.find? (fun x =>
          ({ a with source := some Source.keyword } : SearchRow).idea.id == x.idea.id) with
      | some b =>
        rw [hfind] at hfa
        constructor
        · intro _
          refine ⟨⟨a, ha, by rw [← hfa]; rfl⟩, ?_⟩
          refine ⟨b, List.mem_of_find?_eq_some hfind, ?_⟩
          have hq := List.find?_some hfind
          have hq2 : a.idea.id = b.idea.id := by simpa using hq
          rw [← hfa, ← hq2]
          rfl
        · intro _
          rw [← hfa]
          rfl
      | none =>
        rw [hfind] at hfa
        constructor
        · intro h
          rw [← hfa] at h
          simp at h
        · rintro ⟨-, ⟨b, hb, hbid⟩⟩
          exfalso
          have hnb := List.find?_eq_none.mp hfind b hb
          apply hnb
          show (({ a with source := some Source.keyword } : SearchRow).idea.id ==
            b.idea.id) = true
          rw [← hfa] at hbid
          simpa using hbid.symm
    · rcases List.mem_map.mp hr2 with ⟨b0, hb0f, hfb⟩
      have hb0 : b0 ∈ vec := List.mem_of_mem_filter hb0f
      have hcond := List.of_mem_filter hb0f
      constructor
      · intro h
        rw [← hfb] at h
        simp [tagVecRow] at h
      · rintro ⟨⟨a, ha, haid⟩, -⟩
        exfalso
        have hany : (addKeywordRows kw).any (fun x => x.idea.id == b0.idea.id) = true := by
          apply List.any_eq_true.mpr
          refine ⟨{ a with source := some Source.keyword }, ?_, ?_⟩
          · unfold addKeywordRows
            exact List.mem_map_of_mem _ ha
          · show (a.idea.id == b0.idea.id) = true
            rw [← hfb] at haid
            simpa using haid
        rw [Bool.not_eq_true'] at hcond
        rw [hcond] at hany
        cases hany

/-- C1 witness: the merge of two one-row sub-results sharing an idea id. -/
theorem hybrid_merge_max_and_both_witness :
    ∃ r ∈ mergeResults [mergeKwRow] [mergeVecRow], r.idea.id = mergeKwRow.idea.id ∧
      r.relevance = max mergeKwRow.relevance mergeVecRow.relevance ∧
      r.source = some Source.both :=
  (hybrid_merge_max_and_both [mergeKwRow] [mergeVecRow] (by decide) (by decide)).1
    mergeKwRow (List.Mem.head _) mergeVecRow (List.Mem.head _) rfl

end IdeaSys
